import Mathlib

/-!
Verification of the wallet transaction and ledger consistency engine.

The definitions below are a shallow embedding of the repository's core:

* `src/src/domain/wallet.mjs` — `assertWalletActive`, `canDebit`
* `src/src/domain/transactions.mjs` — `assertTransactionPending`
* the wallet repository (`findWalletByIdAndAccountTx`, `debitWallet`,
  `creditWallet`, `updateWalletBalance`) and transaction repository
  (`findByReferenceTx`, `findByIdTx`, `updateTransactionStatus`)
* `src/src/services/transaction.service.mjs` — `authorize`, `debit`,
  `credit`, `reverse`, `adminReverse`
* `src/utlis/canonicalJson.mjs` — `canonicalJson`
* the request-signature middleware (HMAC verification plus the
  Redis-backed nonce replay check).

Database rows are records, the store is explicit state, `uuid()` calls are
modelled by a fresh-id counter, and a Prisma `$transaction` that throws is
modelled by `Except.error` (the unit of work rolls back, so no state is
returned).  JavaScript numbers holding minor-unit amounts are modelled as
`Int` (the code funnels amounts through integer minor units).
-/

namespace WalletSys

/-- Account status: the schema stores ACTIVE or FROZEN. -/
inductive AccountStatus
  | active
  | frozen
deriving DecidableEq, Repr

/-- Transaction type strings used by the service layer. -/
inductive TxType
  | authorize
  | debit
  | credit
  | reverse
deriving DecidableEq, Repr

/-- Transaction status strings used by the service layer. -/
inductive TxStatus
  | pending
  | completed
  | reversed
deriving DecidableEq, Repr

/-- Ledger entry direction strings. -/
inductive Direction
  | debit
  | credit
deriving DecidableEq, Repr

/-- A wallet row joined with its owning account (the repository queries use
`include: \x7b account: true \x7d`), so the account's status rides along. -/
structure Wallet where
  id : Nat
  accountId : Nat
  balance : Int
  currency : String
  version : Nat
  accountStatus : AccountStatus
deriving DecidableEq, Repr

/-- A transaction row. -/
structure Transaction where
  id : Nat
  walletId : Nat
  type : TxType
  amount : Int
  status : TxStatus
  referenceId : String
deriving DecidableEq, Repr

/-- A ledger entry row. -/
structure LedgerEntry where
  id : Nat
  transactionId : Nat
  direction : Direction
  amount : Int
  balanceBefore : Int
  balanceAfter : Int
deriving DecidableEq, Repr

/-- `ServiceError` / `DomainError`: message dropped, code and HTTP status kept. -/
structure ServiceError where
  code : String
  statusCode : Nat
deriving DecidableEq, Repr

/-- The relational store: wallets, transactions, ledger entries, plus a
fresh-id counter standing in for `uuid()`. -/
structure St where
  wallets : List Wallet
  transactions : List Transaction
  ledger : List LedgerEntry
  nextId : Nat
deriving DecidableEq, Repr

/-- `walletRepo.findWalletByIdAndAccountTx`: first wallet matching id and
accountId (`findFirst` with `where: \x7b id, accountId \x7d`). -/
def findWalletByIdAndAccountTx (st : St) (walletId accountId : Nat) : Option Wallet :=
  st.wallets.find? (fun w => w.id == walletId && w.accountId == accountId)

/-- `txRepo.findByReferenceTx`: transaction with the given unique referenceId. -/
def findByReferenceTx (st : St) (referenceId : String) : Option Transaction :=
  st.transactions.find? (fun t => t.referenceId == referenceId)

/-- `txRepo.findByIdTx`: transaction with the given id. -/
def findByIdTx (st : St) (transactionId : Nat) : Option Transaction :=
  st.transactions.find? (fun t => t.id == transactionId)

/-- `walletRepo.debitWallet`: conditional update
`where \x7b id, version \x7d`, setting `balance = wallet.balance - amount`
(from the read snapshot) and `version: \x7b increment: 1 \x7d`. -/
def debitWallet (wallets : List Wallet) (w : Wallet) (amount : Int) : List Wallet :=
  wallets.map fun x =>
    if x.id == w.id && x.version == w.version then
      { x with balance := w.balance - amount, version := x.version + 1 }
    else x

/-- `walletRepo.creditWallet`: plain update `where \x7b id \x7d`, setting
`balance = currentBalance + amount`; no version condition and no version
increment. -/
def creditWallet (wallets : List Wallet) (walletId : Nat) (currentBalance amount : Int) :
    List Wallet :=
  wallets.map fun x =>
    if x.id == walletId then { x with balance := currentBalance + amount } else x

/-- `walletRepo.updateWalletBalance`: conditional update
`where \x7b id, version \x7d`, setting the given balance and incrementing
the version. -/
def updateWalletBalance (wallets : List Wallet) (w : Wallet) (newBalance : Int) :
    List Wallet :=
  wallets.map fun x =>
    if x.id == w.id && x.version == w.version then
      { x with balance := newBalance, version := x.version + 1 }
    else x

/-- `txRepo.updateTransactionStatus`: update `where \x7b id \x7d` setting status. -/
def updateTransactionStatus (txs : List Transaction) (transactionId : Nat)
    (status : TxStatus) : List Transaction :=
  txs.map fun t => if t.id == transactionId then { t with status := status } else t

/-- `assertWalletActive` (the service calls it on a wallet already known to
exist, so only the FROZEN branch is reachable here). -/
def assertWalletActive (w : Wallet) : Option ServiceError :=
  if w.accountStatus == .frozen then some ⟨"ACCOUNT_FROZEN", 403⟩ else none

/-- `canDebit`: amount must be positive (`isNegative || isZero` →
INVALID_AMOUNT) and the balance must cover it (`lessThan` →
INSUFFICIENT_FUNDS). -/
def canDebit (w : Wallet) (amount : Int) : Option ServiceError :=
  if amount ≤ 0 then some ⟨"INVALID_AMOUNT", 400⟩
  else if w.balance < amount then some ⟨"INSUFFICIENT_FUNDS", 422⟩
  else none

/-- `assertTransactionPending` (called on a transaction already known to
exist): any status other than pending is rejected with 422. -/
def assertTransactionPending (t : Transaction) : Option ServiceError :=
  if t.status != .pending then some ⟨"TRANSACTION_NOT_PENDING", 422⟩ else none

/-- `transactionService.authorize`: look up the wallet, check active and
debit-able, check the referenceId is unused, then create a pending
authorize transaction.  No wallet update and no ledger entry. -/
def authorize (st : St) (walletId accountId : Nat) (amount : Int)
    (referenceId : String) : Except ServiceError (Transaction × Wallet × St) :=
  match findWalletByIdAndAccountTx st walletId accountId with
  | none => .error ⟨"WALLET_NOT_FOUND", 404⟩
  | some wallet =>
    match assertWalletActive wallet with
    | some e => .error e
    | none =>
      match canDebit wallet amount with
      | some e => .error e
      | none =>
        match findByReferenceTx st referenceId with
        | some _ => .error ⟨"DUPLICATE_REFERENCE", 409⟩
        | none =>
          let t : Transaction :=
            ⟨st.nextId, walletId, .authorize, amount, .pending, referenceId⟩
          .ok (t, wallet,
            { st with transactions := st.transactions ++ [t], nextId := st.nextId + 1 })

/-- `transactionService.debit`: wallet lookup, active check, `canDebit`,
duplicate-reference check (in that order), then the conditional balance
update, the completed debit transaction, and its ledger entry. -/
def debit (st : St) (walletId accountId : Nat) (amount : Int)
    (referenceId : String) : Except ServiceError (Transaction × Wallet × St) :=
  match findWalletByIdAndAccountTx st walletId accountId with
  | none => .error ⟨"WALLET_NOT_FOUND", 404⟩
  | some wallet =>
    match assertWalletActive wallet with
    | some e => .error e
    | none =>
      match canDebit wallet amount with
      | some e => .error e
      | none =>
        match findByReferenceTx st referenceId with
        | some _ => .error ⟨"DUPLICATE_REFERENCE", 409⟩
        | none =>
          let updatedWallet : Wallet :=
            { wallet with balance := wallet.balance - amount, version := wallet.version + 1 }
          let t : Transaction :=
            ⟨st.nextId, walletId, .debit, amount, .completed, referenceId⟩
          let e : LedgerEntry :=
            ⟨st.nextId + 1, t.id, .debit, amount, wallet.balance, updatedWallet.balance⟩
          .ok (t, updatedWallet,
            { st with
              wallets := debitWallet st.wallets wallet amount,
              transactions := st.transactions ++ [t],
              ledger := st.ledger ++ [e],
              nextId := st.nextId + 2 })

/-- `transactionService.credit`: wallet lookup, active check,
duplicate-reference check, then the unconditional balance update (no
version bump), the completed credit transaction, and its ledger entry. -/
def credit (st : St) (walletId accountId : Nat) (amount : Int)
    (referenceId : String) : Except ServiceError (Transaction × Wallet × St) :=
  match findWalletByIdAndAccountTx st walletId accountId with
  | none => .error ⟨"WALLET_NOT_FOUND", 404⟩
  | some wallet =>
    match assertWalletActive wallet with
    | some e => .error e
    | none =>
      match findByReferenceTx st referenceId with
      | some _ => .error ⟨"DUPLICATE_REFERENCE", 409⟩
      | none =>
        let updatedWallet : Wallet :=
          { wallet with balance := wallet.balance + amount }
        let t : Transaction :=
          ⟨st.nextId, walletId, .credit, amount, .completed, referenceId⟩
        let e : LedgerEntry :=
          ⟨st.nextId + 1, t.id, .credit, amount, wallet.balance, updatedWallet.balance⟩
        .ok (t, updatedWallet,
          { st with
            wallets := creditWallet st.wallets walletId wallet.balance amount,
            transactions := st.transactions ++ [t],
            ledger := st.ledger ++ [e],
            nextId := st.nextId + 2 })

/-- `transactionService.reverse` (self-service): find the transaction (the
query joins its wallet; a dangling `walletId` would crash the JS at
`transaction.wallet.accountId`, modelled by an unreachable 500), check
ownership, require pending status, then flip the status to reversed.
No balance mutation and no ledger entry. -/
def reverse (st : St) (transactionId accountId : Nat) :
    Except ServiceError (Transaction × St) :=
  match findByIdTx st transactionId with
  | none => .error ⟨"TRANSACTION_NOT_FOUND", 404⟩
  | some t =>
    match st.wallets.find? (fun w => w.id == t.walletId) with
    | none => .error ⟨"WALLET_RECORD_MISSING", 500⟩
    | some w =>
      if w.accountId != accountId then .error ⟨"TRANSACTION_NOT_FOUND", 404⟩
      else
        match assertTransactionPending t with
        | some e => .error e
        | none =>
          .ok ({ t with status := .reversed },
            { st with
              transactions := updateTransactionStatus st.transactions transactionId .reversed })

/-- `transactionService.adminReverse`: status guards (reversed → 409,
non-completed → 422), then by original type: debit → credit back the
amount; credit → insufficient-funds guard, then debit the amount back;
any other type → INVALID_TRANSACTION_TYPE.  On success: flip the original
to reversed, apply the inverse delta through the version-checked wallet
update, create the `REV-`-prefixed compensating transaction and its
inverse-direction ledger entry. -/
def adminReverse (st : St) (transactionId : Nat) :
    Except ServiceError (Transaction × Transaction × Wallet × St) :=
  match findByIdTx st transactionId with
  | none => .error ⟨"TRANSACTION_NOT_FOUND", 404⟩
  | some t =>
    match st.wallets.find? (fun w => w.id == t.walletId) with
    | none => .error ⟨"WALLET_RECORD_MISSING", 500⟩
    | some w =>
      if t.status == .reversed then .error ⟨"ALREADY_REVERSED", 409⟩
      else if t.status != .completed then .error ⟨"INVALID_STATUS", 422⟩
      else
        match t.type with
        | .debit =>
          let newBalance := w.balance + t.amount
          .ok (adminReverseCommit st transactionId t w newBalance .credit)
        | .credit =>
          if w.balance < t.amount then .error ⟨"INSUFFICIENT_FUNDS", 422⟩
          else
            let newBalance := w.balance - t.amount
            .ok (adminReverseCommit st transactionId t w newBalance .debit)
        | _ => .error ⟨"INVALID_TRANSACTION_TYPE", 422⟩
where
  /-- The shared tail of `adminReverse` after `newBalance`/`reversalType`
  are computed: status flip, wallet update, reversal transaction, ledger
  entry. -/
  adminReverseCommit (st : St) (transactionId : Nat) (t : Transaction) (w : Wallet)
      (newBalance : Int) (reversalType : Direction) :
      Transaction × Transaction × Wallet × St :=
    let revTx : Transaction :=
      ⟨st.nextId, w.id, .reverse, t.amount, .completed, "REV-" ++ t.referenceId⟩
    let entry : LedgerEntry :=
      ⟨st.nextId + 1, revTx.id, reversalType, t.amount, w.balance, newBalance⟩
    let updatedWallet : Wallet :=
      { w with balance := newBalance, version := w.version + 1 }
    ({ t with status := .reversed }, revTx, updatedWallet,
      { st with
        wallets := updateWalletBalance st.wallets w newBalance,
        transactions := updateTransactionStatus st.transactions transactionId .reversed ++ [revTx],
        ledger := st.ledger ++ [entry],
        nextId := st.nextId + 2 })

/-- Signed amount of a ledger entry: credits count positive, debits negative. -/
def signedAmount (e : LedgerEntry) : Int :=
  match e.direction with
  | .credit => e.amount
  | .debit => -e.amount

/-- Sum of the signed amounts of a list of ledger entries. -/
def signedSum (l : List LedgerEntry) : Int :=
  (l.map signedAmount).sum

/-- The wallet a ledger entry belongs to, through its transaction. -/
def entryWalletId (st : St) (e : LedgerEntry) : Option Nat :=
  (st.transactions.find? (fun t => t.id == e.transactionId)).map (fun t => t.walletId)

/-- The ledger entries of one wallet, in creation order. -/
def walletEntries (st : St) (walletId : Nat) : List LedgerEntry :=
  st.ledger.filter (fun e => entryWalletId st e == some walletId)

/-- Replaying a list of ledger entries from balance `b`: every entry's
balanceBefore must equal the running balance and its balanceAfter must be
the running balance shifted by the entry's signed amount. -/
def chainOk : Int → List LedgerEntry → Bool
  | _, [] => true
  | b, e :: es =>
    e.balanceBefore == b && e.balanceAfter == b + signedAmount e && chainOk e.balanceAfter es

/-- A balance-mutating call of the service layer, with its arguments. -/
inductive Op
  | debit (walletId accountId : Nat) (amount : Int) (referenceId : String)
  | credit (walletId accountId : Nat) (amount : Int) (referenceId : String)
  | adminReverse (transactionId : Nat)

/-- Run one operation, keeping only the resulting state. -/
def runOp (st : St) : Op → Except ServiceError St
  | .debit walletId accountId amount referenceId =>
    (debit st walletId accountId amount referenceId).map (fun r => r.2.2)
  | .credit walletId accountId amount referenceId =>
    (credit st walletId accountId amount referenceId).map (fun r => r.2.2)
  | .adminReverse transactionId =>
    (adminReverse st transactionId).map (fun r => r.2.2.2)

/-- Run a sequence of operations; the whole run fails as soon as one
operation fails (a failed unit of work rolls back and the sequence of
*successful* operations is the prefix already applied). -/
def runOps : List Op → St → Except ServiceError St
  | [], st => .ok st
  | op :: ops, st => (runOp st op).bind (runOps ops)

/-- Store well-formedness tied to the fresh-id counter, plus the ledger
invariant of every wallet. -/
def Inv (st : St) : Prop :=
  (∀ t ∈ st.transactions, t.id < st.nextId) ∧
  (∀ e ∈ st.ledger, e.transactionId < st.nextId) ∧
  (st.wallets.map (fun w => w.id)).Nodup ∧
  (∀ w ∈ st.wallets,
    w.balance = signedSum (walletEntries st w.id) ∧
    chainOk 0 (walletEntries st w.id) = true)

/-- An initial store: the given wallets, no transactions, no ledger. -/
def initSt (ws : List Wallet) : St :=
  ⟨ws, [], [], 0⟩

/-- JSON values as express delivers them in `req.body`.  Object fields keep
their JavaScript insertion order; a well-formed body never repeats a key. -/
inductive Json
  | null
  | bool (b : Bool)
  | num (n : Int)
  | str (s : String)
  | arr (elems : List Json)
  | obj (fields : List (String × Json))

/-- The common JSON string escapes used by `JSON.stringify` (the bodies in
this development contain no other control characters). -/
def escapeJsonChar (c : Char) : String :=
  if c = '"' then "\\\""
  else if c = '\\' then "\\\\"
  else if c = '\n' then "\\n"
  else if c = '\t' then "\\t"
  else if c = '\r' then "\\r"
  else String.singleton c

/-- A JSON string literal with quotes and escapes. -/
def quoteString (s : String) : String :=
  "\"" ++ String.join (s.data.map escapeJsonChar) ++ "\""

mutual

/-- `JSON.stringify`: serialises a value, keeping object fields in their
stored order and array elements in positional order. -/
def jsonStringifyVal : Json → String
  | .null => "null"
  | .bool true => "true"
  | .bool false => "false"
  | .num n => toString n
  | .str s => quoteString s
  | .arr l => "[" ++ jsonStringifyArr l ++ "]"
  | .obj kvs => "\x7b" ++ jsonStringifyObj kvs ++ "\x7d"

/-- Comma-joined serialisation of array elements. -/
def jsonStringifyArr : List Json → String
  | [] => ""
  | [v] => jsonStringifyVal v
  | v :: vs => jsonStringifyVal v ++ "," ++ jsonStringifyArr vs

/-- Comma-joined serialisation of object fields. -/
def jsonStringifyObj : List (String × Json) → String
  | [] => ""
  | [(k, v)] => quoteString k ++ ":" ++ jsonStringifyVal v
  | (k, v) :: kvs => quoteString k ++ ":" ++ jsonStringifyVal v ++ "," ++ jsonStringifyObj kvs

end

/-- JavaScript's default sort comparator on keys: lexicographic
comparison of the strings' code units (on Lean's side, the characters'
numeric values). -/
def charsLe : List Char → List Char → Bool
  | [], _ => true
  | _ :: _, [] => false
  | a :: as, b :: bs =>
    if a.toNat < b.toNat then true
    else if b.toNat < a.toNat then false
    else charsLe as bs

/-- Key comparison used by `Object.keys(obj).sort()`. -/
def strLe (a b : String) : Bool :=
  charsLe a.data b.data

/-- `Object.keys(obj).sort()` followed by the rebuilding `reduce`: the
fields reordered by ascending key (the sort is stable, which is
irrelevant for distinct keys). -/
def sortFields (kvs : List (String × Json)) : List (String × Json) :=
  List.insertionSort (fun a b => strLe a.1 b.1 = true) kvs

/-- `Object.keys` of a JavaScript array: positional keys `"0"`, `"1"`, …
paired with the elements. -/
def indexFields (l : List Json) : List (String × Json) :=
  l.enum.map (fun p => (toString p.1, p.2))

/-- `canonicalJson` from `src/utlis/canonicalJson.mjs`: primitives and null
give `""`; otherwise the top-level keys are sorted and the result is
stringified.  (An array is an `object` to `typeof`, so it is rebuilt into a
plain object keyed by its sorted index strings.)  Values are not recursed
into. -/
def canonicalJson : Json → String
  | .obj kvs => jsonStringifyVal (.obj (sortFields kvs))
  | .arr l => jsonStringifyVal (.obj (sortFields (indexFields l)))
  | _ => ""

/-- Formalises the spec's notion of two bodies being *equal as JSON
values*: the smallest congruence on JSON values that ignores the order of
object fields at every nesting depth.  This definition follows the spec's
words, not the repository's code. -/
inductive JsonEquiv : Json → Json → Prop
  | refl (j : Json) : JsonEquiv j j
  | symm {a b : Json} : JsonEquiv a b → JsonEquiv b a
  | trans {a b c : Json} : JsonEquiv a b → JsonEquiv b c → JsonEquiv a c
  | perm {kvs₁ kvs₂ : List (String × Json)} (h : kvs₁.Perm kvs₂) :
      JsonEquiv (.obj kvs₁) (.obj kvs₂)
  | arrCongr {l₁ l₂ : List Json} (h : List.Forall₂ JsonEquiv l₁ l₂) :
      JsonEquiv (.arr l₁) (.arr l₂)
  | objCongr {kvs₁ kvs₂ : List (String × Json)}
      (hk : kvs₁.map Prod.fst = kvs₂.map Prod.fst)
      (hv : List.Forall₂ JsonEquiv (kvs₁.map Prod.snd) (kvs₂.map Prod.snd)) :
      JsonEquiv (.obj kvs₁) (.obj kvs₂)

/-- The four signing headers (`x-signature`, `x-signature-version`,
`x-timestamp`, `x-nonce`); `none` models an absent header.  The timestamp
header is modelled as the integer it parses to. -/
structure SigHeaders where
  signature : Option String
  version : Option String
  timestamp : Option Int
  nonce : Option String

/-- A request as the signature middleware sees it. -/
structure SigRequest where
  method : String
  originalUrl : String
  body : Json
  headers : SigHeaders

/-- The middleware's possible outcomes (`passed` is the `next()` call). -/
inductive SigResult
  | missingHeaders
  | unsupportedVersion
  | requestExpired
  | replayDetected
  | invalidSignature
  | passed
deriving DecidableEq, Repr

/-- The Redis nonce keyspace: `(key, expiry instant)` pairs, newest first. -/
abbrev NonceStore := List (String × Int)

/-- `redis.get(key)` at time `now`: truthy iff some unexpired entry holds
the key. -/
def redisGet (store : NonceStore) (key : String) (now : Int) : Bool :=
  store.any (fun e => e.1 == key && now < e.2)

/-- `redis.set(key, "1", "PX", ttl)` at time `now`: stores the key with
expiry `now + ttl`. -/
def redisSetPX (store : NonceStore) (key : String) (ttl now : Int) : NonceStore :=
  (key, now + ttl) :: store

/-- The signing payload `METHOD|PATH|TIMESTAMP|NONCE|CANONICAL_BODY`. -/
def signPayload (req : SigRequest) (timestamp : Int) (nonce : String) : String :=
  String.intercalate "|"
    [req.method.toUpper, req.originalUrl, toString timestamp, nonce,
      canonicalJson req.body]

/-- The signature middleware, parametrised by the hex HMAC-SHA256 oracle
`hmacHex` (the hex decode plus constant-time byte comparison of the code is
equality of the hex encodings).  Header checks, version check, freshness
window, then the replay check — a `redis.get` followed by a separate
`redis.set` — and only afterwards the HMAC comparison. -/
def signature (hmacHex : String → String) (now ttl : Int) (req : SigRequest)
    (store : NonceStore) : SigResult × NonceStore :=
  match req.headers.signature, req.headers.version,
      req.headers.timestamp, req.headers.nonce with
  | some sig, some ver, some ts, some nonce =>
    if ver ≠ "v1" then (.unsupportedVersion, store)
    else if ttl < now - ts ∨ ttl < ts - now then (.requestExpired, store)
    else
      let nonceKey := "nonce:" ++ nonce
      if redisGet store nonceKey now then (.replayDetected, store)
      else
        let store' := redisSetPX store nonceKey ttl now
        if sig ≠ hmacHex (signPayload req ts nonce) then (.invalidSignature, store')
        else (.passed, store')
  | _, _, _, _ => (.missingHeaders, store)

/-- One scheduling step of two concurrent requests that carry the same
nonce: each request's replay section is the two separate storage
operations of the middleware — its `redis.get` check and, if that check
passed, its `redis.set`. -/
inductive RaceStep
  | check1
  | set1
  | check2
  | set2
deriving DecidableEq, Repr

/-- The shared store plus each request's replay-check outcome
(`none` = not yet executed, `some true` = the check passed). -/
structure RaceState where
  store : NonceStore
  passed1 : Option Bool
  passed2 : Option Bool
deriving DecidableEq, Repr

/-- Execute one step of the interleaving. -/
def raceStep (nonce : String) (now ttl : Int) (st : RaceState) : RaceStep → RaceState
  | .check1 => { st with passed1 := some (!(redisGet st.store ("nonce:" ++ nonce) now)) }
  | .set1 =>
    if st.passed1 = some true then
      { st with store := redisSetPX st.store ("nonce:" ++ nonce) ttl now }
    else st
  | .check2 => { st with passed2 := some (!(redisGet st.store ("nonce:" ++ nonce) now)) }
  | .set2 =>
    if st.passed2 = some true then
      { st with store := redisSetPX st.store ("nonce:" ++ nonce) ttl now }
    else st

/-- Execute a schedule of interleaved steps. -/
def runRace (nonce : String) (now ttl : Int) (steps : List RaceStep)
    (st : RaceState) : RaceState :=
  steps.foldl (raceStep nonce now ttl) st

/-! ## Theorems -/

/-- C4: with the wallet found and its account ACTIVE, a positive amount
covered by the balance, and an unused referenceId, `authorize` succeeds and
creates exactly one Transaction of type authorize with status pending; the
wallets and the ledger — hence the wallet's balance and version — are
untouched. -/
theorem C4_authorize_frame (st : St) (walletId accountId : Nat) (amount : Int)
    (referenceId : String) (w : Wallet)
    (hw : findWalletByIdAndAccountTx st walletId accountId = some w)
    (hactive : w.accountStatus = .active)
    (hpos : 0 < amount)
    (hbal : amount ≤ w.balance)
    (href : findByReferenceTx st referenceId = none) :
    authorize st walletId accountId amount referenceId =
      .ok (⟨st.nextId, walletId, .authorize, amount, .pending, referenceId⟩, w,
        ⟨st.wallets,
         st.transactions ++ [⟨st.nextId, walletId, .authorize, amount, .pending, referenceId⟩],
         st.ledger, st.nextId + 1⟩) := by
  have h1 : assertWalletActive w = none := by simp [assertWalletActive, hactive]
  have h2 : canDebit w amount = none := by
    simp only [canDebit]
    rw [if_neg (by omega), if_neg (by omega)]
  simp [authorize, hw, h1, h2, href]

/-- Witness for C4 at a concrete store. -/
theorem C4_authorize_frame_witness :
    authorize (initSt [⟨1, 1, 100, "USD", 0, .active⟩]) 1 1 40 "a1" =
      .ok (⟨0, 1, .authorize, 40, .pending, "a1"⟩, ⟨1, 1, 100, "USD", 0, .active⟩,
        ⟨[⟨1, 1, 100, "USD", 0, .active⟩], [⟨0, 1, .authorize, 40, .pending, "a1"⟩],
          [], 1⟩) :=
  C4_authorize_frame _ 1 1 40 "a1" _ rfl rfl (by decide) (by decide) rfl

/-- C10: `adminReverse` on a completed transaction whose type is reverse or
authorize fails with INVALID_TRANSACTION_TYPE (422), so a compensating
reversal transaction can itself never be admin-reversed; the failing unit
of work rolls back, changing nothing. -/
theorem C10_adminReverse_type_guard (st : St) (tid : Nat) (t : Transaction) (w : Wallet)
    (ht : findByIdTx st tid = some t)
    (hw : st.wallets.find? (fun x => x.id == t.walletId) = some w)
    (hst : t.status = .completed)
    (hty : t.type = .reverse ∨ t.type = .authorize) :
    adminReverse st tid = .error ⟨"INVALID_TRANSACTION_TYPE", 422⟩ := by
  rcases hty with h | h <;> simp [adminReverse, ht, hw, hst, h]

/-- Witness for C10: a completed compensating reversal transaction cannot
be admin-reversed. -/
theorem C10_adminReverse_type_guard_witness :
    adminReverse ⟨[⟨1, 1, 50, "USD", 0, .active⟩],
      [⟨0, 1, .reverse, 20, .completed, "REV-r1"⟩], [], 1⟩ 0 =
      .error ⟨"INVALID_TRANSACTION_TYPE", 422⟩ :=
  C10_adminReverse_type_guard _ 0 _ _ rfl rfl rfl (Or.inl rfl)

/-- Inversion of a successful `debit`: the guards all passed and the
results have the shapes built in the success branch. -/
theorem debit_ok_inv (st : St) (walletId accountId : Nat) (amount : Int)
    (referenceId : String) (w : Wallet) (t : Transaction) (uw : Wallet) (st' : St)
    (hw : findWalletByIdAndAccountTx st walletId accountId = some w)
    (h : debit st walletId accountId amount referenceId = .ok (t, uw, st')) :
    assertWalletActive w = none ∧ canDebit w amount = none ∧
    findByReferenceTx st referenceId = none ∧
    t = ⟨st.nextId, walletId, .debit, amount, .completed, referenceId⟩ ∧
    uw = { w with balance := w.balance - amount, version := w.version + 1 } ∧
    st' = { st with
      wallets := debitWallet st.wallets w amount,
      transactions := st.transactions ++
        [⟨st.nextId, walletId, .debit, amount, .completed, referenceId⟩],
      ledger := st.ledger ++
        [⟨st.nextId + 1, st.nextId, .debit, amount, w.balance, w.balance - amount⟩],
      nextId := st.nextId + 2 } := by
  simp only [debit, hw] at h
  cases hA : assertWalletActive w with
  | some e => rw [hA] at h; simp at h
  | none =>
    rw [hA] at h
    cases hB : canDebit w amount with
    | some e => rw [hB] at h; simp at h
    | none =>
      rw [hB] at h
      cases hC : findByReferenceTx st referenceId with
      | some e => rw [hC] at h; simp at h
      | none =>
        rw [hC] at h
        simp only [Except.ok.injEq, Prod.mk.injEq] at h
        obtain ⟨h1, h2, h3⟩ := h
        exact ⟨rfl, rfl, rfl, h1.symm, h2.symm, h3.symm⟩

/-- Inversion of a successful `credit`. -/
theorem credit_ok_inv (st : St) (walletId accountId : Nat) (amount : Int)
    (referenceId : String) (w : Wallet) (t : Transaction) (uw : Wallet) (st' : St)
    (hw : findWalletByIdAndAccountTx st walletId accountId = some w)
    (h : credit st walletId accountId amount referenceId = .ok (t, uw, st')) :
    assertWalletActive w = none ∧
    findByReferenceTx st referenceId = none ∧
    t = ⟨st.nextId, walletId, .credit, amount, .completed, referenceId⟩ ∧
    uw = { w with balance := w.balance + amount } ∧
    st' = { st with
      wallets := creditWallet st.wallets walletId w.balance amount,
      transactions := st.transactions ++
        [⟨st.nextId, walletId, .credit, amount, .completed, referenceId⟩],
      ledger := st.ledger ++
        [⟨st.nextId + 1, st.nextId, .credit, amount, w.balance, w.balance + amount⟩],
      nextId := st.nextId + 2 } := by
  simp only [credit, hw] at h
  cases hA : assertWalletActive w with
  | some e => rw [hA] at h; simp at h
  | none =>
    rw [hA] at h
    cases hC : findByReferenceTx st referenceId with
    | some e => rw [hC] at h; simp at h
    | none =>
      rw [hC] at h
      simp only [Except.ok.injEq, Prod.mk.injEq] at h
      obtain ⟨h1, h2, h3⟩ := h
      exact ⟨rfl, rfl, h1.symm, h2.symm, h3.symm⟩

/-- Inversion of a successful `adminReverse`: the original was completed,
its type was debit or credit, and the results have the committed shapes. -/
theorem adminReverse_ok_inv (st : St) (tid : Nat) (t : Transaction) (w : Wallet)
    (ot rt : Transaction) (uw : Wallet) (st' : St)
    (ht : findByIdTx st tid = some t)
    (hw : st.wallets.find? (fun x => x.id == t.walletId) = some w)
    (h : adminReverse st tid = .ok (ot, rt, uw, st')) :
    t.status = .completed ∧
    ∃ newBalance rType,
      ((t.type = .debit ∧ newBalance = w.balance + t.amount ∧ rType = Direction.credit) ∨
       (t.type = .credit ∧ ¬ w.balance < t.amount ∧
         newBalance = w.balance - t.amount ∧ rType = Direction.debit)) ∧
      ot = { t with status := .reversed } ∧
      rt = ⟨st.nextId, w.id, .reverse, t.amount, .completed, "REV-" ++ t.referenceId⟩ ∧
      uw = { w with balance := newBalance, version := w.version + 1 } ∧
      st' = { st with
        wallets := updateWalletBalance st.wallets w newBalance,
        transactions := updateTransactionStatus st.transactions tid .reversed ++
          [⟨st.nextId, w.id, .reverse, t.amount, .completed, "REV-" ++ t.referenceId⟩],
        ledger := st.ledger ++
          [⟨st.nextId + 1, st.nextId, rType, t.amount, w.balance, newBalance⟩],
        nextId := st.nextId + 2 } := by
  simp only [adminReverse, ht, hw] at h
  cases hS : t.status with
  | reversed => rw [hS] at h; simp at h
  | pending => rw [hS] at h; simp at h
  | completed =>
    rw [hS] at h
    rw [if_neg (by decide), if_neg (by decide)] at h
    cases hT : t.type with
    | debit =>
      rw [hT] at h
      simp only [adminReverse.adminReverseCommit] at h
      simp only [Except.ok.injEq, Prod.mk.injEq] at h
      obtain ⟨h1, h2, h3, h4⟩ := h
      exact ⟨rfl, w.balance + t.amount, .credit, Or.inl ⟨rfl, rfl, rfl⟩,
        by rw [← h1, hT], h2.symm, h3.symm, h4.symm⟩
    | credit =>
      rw [hT] at h
      by_cases hlt : w.balance < t.amount
      · rw [if_pos hlt] at h; simp at h
      · rw [if_neg hlt] at h
        simp only [adminReverse.adminReverseCommit] at h
        simp only [Except.ok.injEq, Prod.mk.injEq] at h
        obtain ⟨h1, h2, h3, h4⟩ := h
        exact ⟨rfl, w.balance - t.amount, .debit, Or.inr ⟨rfl, hlt, rfl, rfl⟩,
          by rw [← h1, hT], h2.symm, h3.symm, h4.symm⟩
    | authorize => rw [hT] at h; simp at h
    | reverse => rw [hT] at h; simp at h

/-- `find?` only depends on the pointwise values of the predicate. -/
theorem find?_congrPred {α : Type} (p q : α → Bool) (h : ∀ a, p a = q a) :
    ∀ l : List α, l.find? p = l.find? q := by
  intro l
  induction l with
  | nil => rfl
  | cons a l ih =>
    simp only [List.find?]
    rw [h a]
    cases q a
    · simpa using ih
    · rfl

/-- `find?` commutes with mapping a function that does not change the
predicate's verdict. -/
theorem find?_map_preserving {α : Type} (f : α → α) (p : α → Bool) (l : List α)
    (hp : ∀ x, p (f x) = p x) :
    (l.map f).find? p = (l.find? p).map f := by
  rw [List.find?_map, find?_congrPred (p ∘ f) p hp l]

/-- C3 counterexample: a successful credit mutates the balance (0 → 100)
but leaves the wallet version at 0 rather than incrementing it to 1, so
not every successful balance mutation bumps the version. -/
theorem C3_counterexample :
    (credit (initSt [⟨1, 1, 0, "USD", 0, .active⟩]) 1 1 100 "c1").map
      (fun r => (r.2.1.balance, r.2.1.version)) = .ok (100, 0) ∧ (0 : Nat) ≠ 0 + 1 :=
  ⟨rfl, by decide⟩

/-- C3 (amended): a successful debit or adminReverse increments the
mutated wallet's version by exactly 1, but a successful credit leaves the
version unchanged (its update has no version bump), so after n successful
mutations the version equals the number of debit/adminReverse mutations,
not n. -/
theorem C3_version_semantics (st : St) (walletId accountId tid : Nat) (amount : Int)
    (referenceId : String) (w : Wallet) (t₂ : Transaction) (w₂ : Wallet)
    (hw : findWalletByIdAndAccountTx st walletId accountId = some w)
    (ht : findByIdTx st tid = some t₂)
    (hw₂ : st.wallets.find? (fun x => x.id == t₂.walletId) = some w₂) :
    (∀ t uw st', debit st walletId accountId amount referenceId = .ok (t, uw, st') →
      uw.version = w.version + 1) ∧
    (∀ t uw st', credit st walletId accountId amount referenceId = .ok (t, uw, st') →
      uw.version = w.version) ∧
    (∀ ot rt uw st', adminReverse st tid = .ok (ot, rt, uw, st') →
      uw.version = w₂.version + 1) := by
  refine ⟨?_, ?_, ?_⟩
  · intro t uw st' h
    obtain ⟨-, -, -, -, h2, -⟩ :=
      debit_ok_inv st walletId accountId amount referenceId w t uw st' hw h
    rw [h2]
  · intro t uw st' h
    obtain ⟨-, -, -, h2, -⟩ :=
      credit_ok_inv st walletId accountId amount referenceId w t uw st' hw h
    rw [h2]
  · intro ot rt uw st' h
    obtain ⟨-, nb, rT, -, -, -, h3, -⟩ :=
      adminReverse_ok_inv st tid t₂ w₂ ot rt uw st' ht hw₂ h
    rw [h3]

/-- Witness for C3's amended theorem at a concrete store: the debit bumps
the version 0 → 1, the credit leaves it 0, the adminReverse bumps it
0 → 1. -/
theorem C3_version_semantics_witness :
    (debit ⟨[⟨1, 1, 100, "USD", 0, .active⟩], [⟨0, 1, .debit, 30, .completed, "d0"⟩], [], 1⟩
        1 1 20 "x1").map (fun r => r.2.1.version) = .ok 1 ∧
    (credit ⟨[⟨1, 1, 100, "USD", 0, .active⟩], [⟨0, 1, .debit, 30, .completed, "d0"⟩], [], 1⟩
        1 1 20 "x1").map (fun r => r.2.1.version) = .ok 0 ∧
    (adminReverse ⟨[⟨1, 1, 100, "USD", 0, .active⟩],
        [⟨0, 1, .debit, 30, .completed, "d0"⟩], [], 1⟩ 0).map
      (fun r => r.2.2.1.version) = .ok 1 := by
  obtain ⟨h1, h2, h3⟩ := C3_version_semantics
    ⟨[⟨1, 1, 100, "USD", 0, .active⟩], [⟨0, 1, .debit, 30, .completed, "d0"⟩], [], 1⟩
    1 1 0 20 "x1" ⟨1, 1, 100, "USD", 0, .active⟩ ⟨0, 1, .debit, 30, .completed, "d0"⟩
    ⟨1, 1, 100, "USD", 0, .active⟩ rfl rfl rfl
  have v1 := h1 _ _ _ rfl
  have v2 := h2 _ _ _ rfl
  have v3 := h3 _ _ _ _ rfl
  exact ⟨rfl, rfl, rfl⟩

/-- C1 counterexample: wallet balance 100, `debit(60, "r1")` succeeds; the
identical retry fails, but with INSUFFICIENT_FUNDS rather than
DuplicateReference, because the sufficiency check runs before the
duplicate-reference check and the remaining balance 40 no longer covers
the amount — so the second call's error does depend on the balance
remaining after the first debit. -/
theorem C1_counterexample :
    ((debit (initSt [⟨1, 1, 100, "USD", 0, .active⟩]) 1 1 60 "r1").bind
      (fun r => debit r.2.2 1 1 60 "r1")) = .error ⟨"INSUFFICIENT_FUNDS", 422⟩ ∧
    (⟨"INSUFFICIENT_FUNDS", 422⟩ : ServiceError) ≠ ⟨"DUPLICATE_REFERENCE", 409⟩ :=
  ⟨rfl, by decide⟩

/-- C1 (amended): a successful debit leaves exactly one (completed)
transaction carrying its referenceId and one balance change, and the
identical retry is never re-executed and never merged: it fails with
DUPLICATE_REFERENCE when the remaining balance still covers the amount,
and with INSUFFICIENT_FUNDS otherwise. -/
theorem C1_debit_idempotence (st : St) (walletId accountId : Nat) (amount : Int)
    (referenceId : String) (w : Wallet) (t : Transaction) (uw : Wallet) (st' : St)
    (hw : findWalletByIdAndAccountTx st walletId accountId = some w)
    (h : debit st walletId accountId amount referenceId = .ok (t, uw, st')) :
    st'.transactions.filter (fun x => x.referenceId == referenceId) = [t] ∧
    t.status = .completed ∧
    uw.balance = w.balance - amount ∧
    debit st' walletId accountId amount referenceId =
      .error (if uw.balance < amount then ⟨"INSUFFICIENT_FUNDS", 422⟩
              else ⟨"DUPLICATE_REFERENCE", 409⟩) := by
  obtain ⟨hA, hB, hC, ht, huw, hst⟩ :=
    debit_ok_inv st walletId accountId amount referenceId w t uw st' hw h
  simp only [findByReferenceTx] at hC
  simp only [findWalletByIdAndAccountTx] at hw
  have hpos : ¬ amount ≤ 0 := by
    intro hle
    simp [canDebit, hle] at hB
  have hfil : st.transactions.filter (fun x => x.referenceId == referenceId) = [] := by
    rw [List.filter_eq_nil_iff]
    intro a ha hcontra
    exact (List.find?_eq_none.mp hC a ha) hcontra
  have h4a : findWalletByIdAndAccountTx st' walletId accountId = some uw := by
    rw [hst]
    show (debitWallet st.wallets w amount).find? _ = some uw
    unfold debitWallet
    rw [find?_map_preserving _ _ _ ?hp, hw]
    case hp =>
      intro x
      by_cases hc : (x.id == w.id && x.version == w.version) = true
      · simp [hc]
      · simp [hc]
    rw [huw]
    simp
  have h4b : assertWalletActive uw = none := by
    rw [huw]
    exact hA
  refine ⟨?_, ?_, ?_, ?_⟩
  · rw [hst, ht]
    show (st.transactions ++ [_]).filter _ = _
    rw [List.filter_append, hfil]
    simp
  · rw [ht]
  · rw [huw]
  · by_cases hlt : uw.balance < amount
    · have h4c : canDebit uw amount = some ⟨"INSUFFICIENT_FUNDS", 422⟩ := by
        simp [canDebit, hpos, hlt]
      simp [debit, h4a, h4b, h4c, hlt]
    · have h4c : canDebit uw amount = none := by
        simp [canDebit, hpos, hlt]
      have h4d : findByReferenceTx st' referenceId = some t := by
        rw [hst, ht]
        show (st.transactions ++ [_]).find? _ = _
        rw [List.find?_append, hC]
        simp
      simp [debit, h4a, h4b, h4c, h4d, hlt]

/-- Witness for C1's amended theorem: balance 100, two debits of 60 with
the same reference — retry fails with INSUFFICIENT_FUNDS since 40 < 60. -/
theorem C1_debit_idempotence_witness :
    (⟨[⟨1, 1, 40, "USD", 1, .active⟩],
       [⟨0, 1, .debit, 60, .completed, "r1"⟩],
       [⟨1, 0, .debit, 60, 100, 40⟩], 2⟩ : St).transactions.filter
        (fun x => x.referenceId == "r1") = [⟨0, 1, .debit, 60, .completed, "r1"⟩] ∧
    (⟨0, 1, .debit, 60, .completed, "r1"⟩ : Transaction).status = .completed ∧
    (⟨1, 1, 40, "USD", 1, .active⟩ : Wallet).balance = 100 - 60 ∧
    debit ⟨[⟨1, 1, 40, "USD", 1, .active⟩],
       [⟨0, 1, .debit, 60, .completed, "r1"⟩],
       [⟨1, 0, .debit, 60, 100, 40⟩], 2⟩ 1 1 60 "r1" =
      .error (if (40 : Int) < 60 then ⟨"INSUFFICIENT_FUNDS", 422⟩
              else ⟨"DUPLICATE_REFERENCE", 409⟩) :=
  C1_debit_idempotence (initSt [⟨1, 1, 100, "USD", 0, .active⟩]) 1 1 60 "r1"
    ⟨1, 1, 100, "USD", 0, .active⟩ _ _ _ rfl rfl

/-- C6 counterexample: self-service reverse on an owned transaction whose
status is reversed fails with TRANSACTION_NOT_PENDING and HTTP 422, not
with a 409 already-reversed error (the service only distinguishes
not-found and not-pending). -/
theorem C6_counterexample :
    reverse ⟨[⟨1, 1, 50, "USD", 0, .active⟩],
      [⟨0, 1, .authorize, 20, .reversed, "r1"⟩], [], 1⟩ 0 1 =
      .error ⟨"TRANSACTION_NOT_PENDING", 422⟩ ∧ (422 : Nat) ≠ 409 :=
  ⟨rfl, by decide⟩

/-- C6 (amended): for an owned transaction, self-service reverse on a
pending transaction succeeds, flips the status to reversed, and touches
neither the wallets nor the ledger; on any non-pending status — completed
and reversed alike — it fails with TRANSACTION_NOT_PENDING (422). -/
theorem C6_reverse_state_machine (st : St) (tid aid : Nat) (t : Transaction) (w : Wallet)
    (ht : findByIdTx st tid = some t)
    (hw : st.wallets.find? (fun x => x.id == t.walletId) = some w)
    (hown : w.accountId = aid) :
    (t.status = .pending →
      reverse st tid aid = .ok ({ t with status := .reversed },
        { st with transactions := updateTransactionStatus st.transactions tid .reversed })) ∧
    (t.status ≠ .pending →
      reverse st tid aid = .error ⟨"TRANSACTION_NOT_PENDING", 422⟩) := by
  constructor
  · intro hp
    simp [reverse, ht, hw, hown, assertTransactionPending, hp]
  · intro hp
    have hpend : assertTransactionPending t = some ⟨"TRANSACTION_NOT_PENDING", 422⟩ := by
      simp [assertTransactionPending, hp]
    simp [reverse, ht, hw, hown, hpend]

/-- Witness for C6's amended theorem: a pending authorize flips to
reversed with wallets and ledger untouched; a completed debit is refused
with TRANSACTION_NOT_PENDING. -/
theorem C6_reverse_state_machine_witness :
    reverse ⟨[⟨1, 1, 50, "USD", 0, .active⟩],
        [⟨0, 1, .authorize, 20, .pending, "r1"⟩], [], 1⟩ 0 1 =
      .ok (⟨0, 1, .authorize, 20, .reversed, "r1"⟩,
        ⟨[⟨1, 1, 50, "USD", 0, .active⟩], [⟨0, 1, .authorize, 20, .reversed, "r1"⟩], [], 1⟩) ∧
    reverse ⟨[⟨1, 1, 50, "USD", 0, .active⟩],
        [⟨0, 1, .debit, 20, .completed, "r2"⟩], [], 1⟩ 0 1 =
      .error ⟨"TRANSACTION_NOT_PENDING", 422⟩ := by
  constructor
  · exact (C6_reverse_state_machine
      ⟨[⟨1, 1, 50, "USD", 0, .active⟩], [⟨0, 1, .authorize, 20, .pending, "r1"⟩], [], 1⟩
      0 1 ⟨0, 1, .authorize, 20, .pending, "r1"⟩ ⟨1, 1, 50, "USD", 0, .active⟩
      rfl rfl rfl).1 rfl
  · exact (C6_reverse_state_machine
      ⟨[⟨1, 1, 50, "USD", 0, .active⟩], [⟨0, 1, .debit, 20, .completed, "r2"⟩], [], 1⟩
      0 1 ⟨0, 1, .debit, 20, .completed, "r2"⟩ ⟨1, 1, 50, "USD", 0, .active⟩
      rfl rfl rfl).2 (by decide)

/-- C5: adminReverse on a completed debit or credit creates the
compensating transaction (type reverse, status completed, referenceId
`REV-` + original) with the inverse-direction ledger entry, flips the
original to reversed, and applies the inverse delta through the
version-bumping wallet update; reversing a credit with balance < amount
fails with INSUFFICIENT_FUNDS and, the unit of work rolling back, changes
nothing. -/
theorem C5_adminReverse_effects (st : St) (tid : Nat) (t : Transaction) (w : Wallet)
    (ht : findByIdTx st tid = some t)
    (hw : st.wallets.find? (fun x => x.id == t.walletId) = some w)
    (hst : t.status = .completed) :
    (t.type = .debit →
      adminReverse st tid = .ok ({ t with status := .reversed },
        ⟨st.nextId, w.id, .reverse, t.amount, .completed, "REV-" ++ t.referenceId⟩,
        { w with balance := w.balance + t.amount, version := w.version + 1 },
        { st with
          wallets := updateWalletBalance st.wallets w (w.balance + t.amount),
          transactions := updateTransactionStatus st.transactions tid .reversed ++
            [⟨st.nextId, w.id, .reverse, t.amount, .completed, "REV-" ++ t.referenceId⟩],
          ledger := st.ledger ++
            [⟨st.nextId + 1, st.nextId, .credit, t.amount, w.balance, w.balance + t.amount⟩],
          nextId := st.nextId + 2 })) ∧
    (t.type = .credit → ¬ w.balance < t.amount →
      adminReverse st tid = .ok ({ t with status := .reversed },
        ⟨st.nextId, w.id, .reverse, t.amount, .completed, "REV-" ++ t.referenceId⟩,
        { w with balance := w.balance - t.amount, version := w.version + 1 },
        { st with
          wallets := updateWalletBalance st.wallets w (w.balance - t.amount),
          transactions := updateTransactionStatus st.transactions tid .reversed ++
            [⟨st.nextId, w.id, .reverse, t.amount, .completed, "REV-" ++ t.referenceId⟩],
          ledger := st.ledger ++
            [⟨st.nextId + 1, st.nextId, .debit, t.amount, w.balance, w.balance - t.amount⟩],
          nextId := st.nextId + 2 })) ∧
    (t.type = .credit → w.balance < t.amount →
      adminReverse st tid = .error ⟨"INSUFFICIENT_FUNDS", 422⟩) := by
  refine ⟨?_, ?_, ?_⟩
  · intro hT
    simp [adminReverse, ht, hw, hst, hT, adminReverse.adminReverseCommit]
  · intro hT hlt
    simp [adminReverse, ht, hw, hst, hT, hlt, adminReverse.adminReverseCommit]
  · intro hT hlt
    simp [adminReverse, ht, hw, hst, hT, hlt]

/-- Witness for C5: reversing a completed debit of 30 restores balance
100 → 130 with a credit-direction entry; reversing a completed credit of
30 against balance 10 fails with INSUFFICIENT_FUNDS. -/
theorem C5_adminReverse_effects_witness :
    adminReverse ⟨[⟨1, 1, 100, "USD", 0, .active⟩],
        [⟨0, 1, .debit, 30, .completed, "d1"⟩], [], 1⟩ 0 =
      .ok (⟨0, 1, .debit, 30, .reversed, "d1"⟩,
        ⟨1, 1, .reverse, 30, .completed, "REV-d1"⟩,
        ⟨1, 1, 130, "USD", 1, .active⟩,
        ⟨[⟨1, 1, 130, "USD", 1, .active⟩],
         [⟨0, 1, .debit, 30, .reversed, "d1"⟩, ⟨1, 1, .reverse, 30, .completed, "REV-d1"⟩],
         [⟨2, 1, .credit, 30, 100, 130⟩], 3⟩) ∧
    adminReverse ⟨[⟨1, 1, 10, "USD", 0, .active⟩],
        [⟨0, 1, .credit, 30, .completed, "c1"⟩], [], 1⟩ 0 =
      .error ⟨"INSUFFICIENT_FUNDS", 422⟩ := by
  constructor
  · exact (C5_adminReverse_effects
      ⟨[⟨1, 1, 100, "USD", 0, .active⟩], [⟨0, 1, .debit, 30, .completed, "d1"⟩], [], 1⟩
      0 ⟨0, 1, .debit, 30, .completed, "d1"⟩ ⟨1, 1, 100, "USD", 0, .active⟩
      rfl rfl rfl).1 rfl
  · exact (C5_adminReverse_effects
      ⟨[⟨1, 1, 10, "USD", 0, .active⟩], [⟨0, 1, .credit, 30, .completed, "c1"⟩], [], 1⟩
      0 ⟨0, 1, .credit, 30, .completed, "c1"⟩ ⟨1, 1, 10, "USD", 0, .active⟩
      rfl rfl rfl).2.2 rfl (by decide)

/-- `charsLe` is total. -/
theorem charsLe_total : ∀ as bs, charsLe as bs = true ∨ charsLe bs as = true := by
  intro as
  induction as with
  | nil => intro bs; exact Or.inl rfl
  | cons a as ih =>
    intro bs
    cases bs with
    | nil => exact Or.inr rfl
    | cons b bs =>
      simp only [charsLe]
      rcases Nat.lt_trichotomy a.toNat b.toNat with h | h | h
      · left; rw [if_pos h]
      · rw [if_neg (by omega), if_neg (by omega), if_neg (by omega), if_neg (by omega)]
        exact ih bs
      · right; rw [if_pos h]

/-- `charsLe` is transitive. -/
theorem charsLe_trans : ∀ as bs cs, charsLe as bs = true → charsLe bs cs = true →
    charsLe as cs = true := by
  intro as
  induction as with
  | nil => intro bs cs h1 h2; rfl
  | cons a as ih =>
    intro bs cs h1 h2
    cases bs with
    | nil => simp [charsLe] at h1
    | cons b bs =>
      cases cs with
      | nil => simp [charsLe] at h2
      | cons c cs =>
        simp only [charsLe] at h1 h2 ⊢
        by_cases hab : a.toNat < b.toNat
        · by_cases hbc : b.toNat < c.toNat
          · rw [if_pos (by omega)]
          · rw [if_neg hbc] at h2
            by_cases hcb : c.toNat < b.toNat
            · rw [if_pos hcb] at h2; simp at h2
            · rw [if_pos (by omega)]
        · rw [if_neg hab] at h1
          by_cases hba : b.toNat < a.toNat
          · rw [if_pos hba] at h1; simp at h1
          · rw [if_neg hba] at h1
            by_cases hbc : b.toNat < c.toNat
            · rw [if_pos (by omega)]
            · rw [if_neg hbc] at h2
              by_cases hcb : c.toNat < b.toNat
              · rw [if_pos hcb] at h2; simp at h2
              · rw [if_neg hcb] at h2
                rw [if_neg (by omega), if_neg (by omega)]
                exact ih bs cs h1 h2

/-- `charsLe` is antisymmetric. -/
theorem charsLe_antisymm : ∀ as bs, charsLe as bs = true → charsLe bs as = true →
    as = bs := by
  intro as
  induction as with
  | nil =>
    intro bs h1 h2
    cases bs with
    | nil => rfl
    | cons b bs => simp [charsLe] at h2
  | cons a as ih =>
    intro bs h1 h2
    cases bs with
    | nil => simp [charsLe] at h1
    | cons b bs =>
      simp only [charsLe] at h1 h2
      by_cases hab : a.toNat < b.toNat
      · rw [if_neg (by omega), if_pos hab] at h2; simp at h2
      · by_cases hba : b.toNat < a.toNat
        · rw [if_neg hab, if_pos hba] at h1; simp at h1
        · rw [if_neg hab, if_neg hba] at h1
          rw [if_neg hba, if_neg hab] at h2
          have hnat : a.toNat = b.toNat := by omega
          have hchar : a = b := Char.ext (UInt32.toNat.inj hnat)
          rw [hchar, ih bs h1 h2]

/-- Sorting the fields is insensitive to the input order when the keys
are distinct. -/
theorem sortFields_perm_eq (kvs₁ kvs₂ : List (String × Json))
    (hperm : kvs₁.Perm kvs₂) (hnd : (kvs₁.map Prod.fst).Nodup) :
    sortFields kvs₁ = sortFields kvs₂ := by
  haveI : IsTotal (String × Json) (fun a b => strLe a.1 b.1 = true) :=
    ⟨fun a b => charsLe_total a.1.data b.1.data⟩
  haveI : IsTrans (String × Json) (fun a b => strLe a.1 b.1 = true) :=
    ⟨fun a b c hab hbc => charsLe_trans a.1.data b.1.data c.1.data hab hbc⟩
  haveI : IsAntisymm (String × Json) (fun a b => strLe a.1 b.1 = true ∧ a.1 ≠ b.1) :=
    ⟨fun a b h1 h2 => absurd (String.ext (charsLe_antisymm _ _ h1.1 h2.1)) h1.2⟩
  have hp1 : (sortFields kvs₁).Perm kvs₁ := List.perm_insertionSort _ kvs₁
  have hp2 : (sortFields kvs₂).Perm kvs₂ := List.perm_insertionSort _ kvs₂
  have hps : (sortFields kvs₁).Perm (sortFields kvs₂) := (hp1.trans hperm).trans hp2.symm
  have hs1 : (sortFields kvs₁).Sorted (fun a b => strLe a.1 b.1 = true) :=
    List.sorted_insertionSort _ kvs₁
  have hs2 : (sortFields kvs₂).Sorted (fun a b => strLe a.1 b.1 = true) :=
    List.sorted_insertionSort _ kvs₂
  have hnd1 : ((sortFields kvs₁).map Prod.fst).Nodup := ((hp1.map Prod.fst).nodup_iff).mpr hnd
  have hnd2 : ((sortFields kvs₂).map Prod.fst).Nodup := by
    have hnd' : (kvs₂.map Prod.fst).Nodup := ((hperm.map Prod.fst).nodup_iff).mp hnd
    exact ((hp2.map Prod.fst).nodup_iff).mpr hnd'
  have strict : ∀ l : List (String × Json), l.Sorted (fun a b => strLe a.1 b.1 = true) →
      (l.map Prod.fst).Nodup →
      l.Sorted (fun a b => strLe a.1 b.1 = true ∧ a.1 ≠ b.1) := by
    intro l hs hn
    have hne : l.Pairwise (fun a b => a.1 ≠ b.1) := List.pairwise_map.mp hn
    exact hs.and hne
  exact List.eq_of_perm_of_sorted hps (strict _ hs1 hnd1) (strict _ hs2 hnd2)

/-- C7 counterexample: two bodies that differ only in the key order of a
*nested* object — equal as JSON values — canonicalize to different
strings, because only the top-level keys are sorted. -/
theorem C7_counterexample :
    JsonEquiv (.obj [("a", .obj [("a", Json.num 1), ("b", Json.num 2)])])
      (.obj [("a", .obj [("b", Json.num 2), ("a", Json.num 1)])]) ∧
    canonicalJson (.obj [("a", .obj [("a", Json.num 1), ("b", Json.num 2)])]) ≠
      canonicalJson (.obj [("a", .obj [("b", Json.num 2), ("a", Json.num 1)])]) := by
  constructor
  · exact .objCongr rfl (.cons
      (.perm (List.Perm.swap ("b", Json.num 2) ("a", Json.num 1) [])) .nil)
  · decide

/-- C7 (amended): the canonicalization sorts object keys at the top level
only, values and array order untouched — two bodies that differ only in
the order of their top-level fields (distinct keys) produce the same
canonical string, but bodies differing in nested key order may not. -/
theorem C7_canonicalJson_topLevel (kvs₁ kvs₂ : List (String × Json))
    (hperm : kvs₁.Perm kvs₂)
    (hnd : (kvs₁.map Prod.fst).Nodup) :
    canonicalJson (.obj kvs₁) = canonicalJson (.obj kvs₂) := by
  have h := sortFields_perm_eq kvs₁ kvs₂ hperm hnd
  simp [canonicalJson, h]

/-- Witness for C7's amended theorem: swapped top-level keys canonicalize
identically. -/
theorem C7_canonicalJson_topLevel_witness :
    canonicalJson (.obj [("b", Json.num 2), ("a", Json.num 1)]) =
      canonicalJson (.obj [("a", Json.num 1), ("b", Json.num 2)]) :=
  C7_canonicalJson_topLevel [("b", Json.num 2), ("a", Json.num 1)]
    [("a", Json.num 1), ("b", Json.num 2)]
    (List.Perm.swap ("a", Json.num 1) ("b", Json.num 2) []) (by decide)

/-- C8: the replay check is two separate storage operations (a get, then
a set), not one atomic check-and-set: under the get/get/set/set
interleaving of two concurrent requests bearing the same nonce, *both*
replay checks pass — the claim's "exactly one passes and the other fails
with ReplayDetected" fails.  Under the sequential schedule the second
check does fail, which is all the code guarantees. -/
theorem C8_nonce_race :
    runRace "n" 0 1000 [.check1, .check2, .set1, .set2] ⟨[], none, none⟩ =
      ⟨[("nonce:n", 1000), ("nonce:n", 1000)], some true, some true⟩ ∧
    runRace "n" 0 1000 [.check1, .set1, .check2, .set2] ⟨[], none, none⟩ =
      ⟨[("nonce:n", 1000)], some true, some false⟩ :=
  ⟨rfl, rfl⟩

/-- C9: the middleware performs the nonce set *before* the HMAC
comparison, so a request rejected with InvalidSignature still consumes
its nonce; resubmitting with the same nonce inside the TTL — with any
signature, corrected or not — is rejected with ReplayDetected and leaves
the store unchanged. -/
theorem C9_nonce_consumed_on_invalid_signature
    (hmacHex : String → String) (now₁ now₂ ttl : Int)
    (req₁ req₂ : SigRequest) (sig₁ sig₂ : String) (ts₁ ts₂ : Int)
    (nonce : String) (store : NonceStore)
    (h₁sig : req₁.headers.signature = some sig₁)
    (h₁ver : req₁.headers.version = some "v1")
    (h₁ts : req₁.headers.timestamp = some ts₁)
    (h₁n : req₁.headers.nonce = some nonce)
    (h₁fresh : ¬(ttl < now₁ - ts₁ ∨ ttl < ts₁ - now₁))
    (h₁new : redisGet store ("nonce:" ++ nonce) now₁ = false)
    (h₁bad : sig₁ ≠ hmacHex (signPayload req₁ ts₁ nonce))
    (h₂sig : req₂.headers.signature = some sig₂)
    (h₂ver : req₂.headers.version = some "v1")
    (h₂ts : req₂.headers.timestamp = some ts₂)
    (h₂n : req₂.headers.nonce = some nonce)
    (h₂fresh : ¬(ttl < now₂ - ts₂ ∨ ttl < ts₂ - now₂))
    (h₂ttl : now₂ < now₁ + ttl) :
    signature hmacHex now₁ ttl req₁ store =
      (.invalidSignature, ("nonce:" ++ nonce, now₁ + ttl) :: store) ∧
    signature hmacHex now₂ ttl req₂ (("nonce:" ++ nonce, now₁ + ttl) :: store) =
      (.replayDetected, ("nonce:" ++ nonce, now₁ + ttl) :: store) := by
  constructor
  · simp only [signature, h₁sig, h₁ver, h₁ts, h₁n]
    rw [if_neg (by simp), if_neg h₁fresh, if_neg (by simp [h₁new]), if_pos h₁bad]
    rfl
  · simp only [signature, h₂sig, h₂ver, h₂ts, h₂n]
    rw [if_neg (by simp), if_neg h₂fresh,
      if_pos (by simp [redisGet, h₂ttl])]

/-- Witness for C9: a request signed `ff` against expected digest `00` is
rejected with InvalidSignature yet stores its nonce; the corrected
resubmission with signature `00` and the same nonce gets ReplayDetected. -/
theorem C9_nonce_consumed_on_invalid_signature_witness :
    signature (fun _ => "00") 0 1000
      ⟨"POST", "/x", .null, ⟨some "ff", some "v1", some 0, some "n"⟩⟩ [] =
      (.invalidSignature, [("nonce:n", 1000)]) ∧
    signature (fun _ => "00") 5 1000
      ⟨"POST", "/x", .null, ⟨some "00", some "v1", some 5, some "n"⟩⟩
      [("nonce:n", 1000)] =
      (.replayDetected, [("nonce:n", 1000)]) :=
  C9_nonce_consumed_on_invalid_signature (fun _ => "00") 0 5 1000
    ⟨"POST", "/x", .null, ⟨some "ff", some "v1", some 0, some "n"⟩⟩
    ⟨"POST", "/x", .null, ⟨some "00", some "v1", some 5, some "n"⟩⟩
    "ff" "00" 0 5 "n" []
    rfl rfl rfl rfl (by decide) rfl (by decide)
    rfl rfl rfl rfl (by decide) (by decide)

/-- `signedSum` over a cons. -/
theorem signedSum_cons (e : LedgerEntry) (l : List LedgerEntry) :
    signedSum (e :: l) = signedAmount e + signedSum l := by
  simp [signedSum]

/-- `signedSum` over an appended entry. -/
theorem signedSum_append_single (l : List LedgerEntry) (e : LedgerEntry) :
    signedSum (l ++ [e]) = signedSum l + signedAmount e := by
  simp [signedSum]

/-- Appending an entry whose balanceBefore continues the chain and whose
balanceAfter shifts it by the signed amount preserves the chain. -/
theorem chainOk_append (l : List LedgerEntry) (e : LedgerEntry) (b : Int)
    (hl : chainOk b l = true)
    (hb : e.balanceBefore = b + signedSum l)
    (ha : e.balanceAfter = e.balanceBefore + signedAmount e) :
    chainOk b (l ++ [e]) = true := by
  induction l generalizing b with
  | nil =>
    simp only [signedSum, List.map_nil, List.sum_nil, Int.add_zero] at hb
    simp only [List.nil_append, chainOk, Bool.and_eq_true, beq_iff_eq, Bool.and_true]
    exact ⟨hb, by omega⟩
  | cons x xs ih =>
    simp only [chainOk, Bool.and_eq_true, beq_iff_eq] at hl
    obtain ⟨⟨hx1, hx2⟩, hxs⟩ := hl
    simp only [List.cons_append, chainOk, Bool.and_eq_true, beq_iff_eq]
    refine ⟨⟨hx1, hx2⟩, ih x.balanceAfter hxs ?_⟩
    rw [signedSum_cons] at hb
    omega

/-- Appending a transaction whose id differs from the sought one does not
change the lookup. -/
theorem findTx_append_fresh (txs : List Transaction) (t' : Transaction) (tid : Nat)
    (hne : tid ≠ t'.id) :
    (txs ++ [t']).find? (fun t => t.id == tid) = txs.find? (fun t => t.id == tid) := by
  rw [List.find?_append]
  cases h : txs.find? (fun t => t.id == tid) with
  | some t => rfl
  | none =>
    have : (t'.id == tid) = false := by
      simpa using fun h' => hne h'.symm
    simp [List.find?, this, Option.or]

/-- A status update never moves a transaction between wallets: the
walletId seen through an id lookup is unchanged. -/
theorem findTx_walletId_updateStatus (txs : List Transaction) (tid₀ : Nat)
    (s : TxStatus) (tid : Nat) :
    ((updateTransactionStatus txs tid₀ s).find? (fun t => t.id == tid)).map
        (fun t => t.walletId) =
    (txs.find? (fun t => t.id == tid)).map (fun t => t.walletId) := by
  unfold updateTransactionStatus
  rw [List.find?_map]
  have hcongr : ∀ x : Transaction,
      ((fun t => t.id == tid) ∘ fun t => if t.id == tid₀ then { t with status := s } else t) x =
      (fun t : Transaction => t.id == tid) x := by
    intro x
    by_cases h : x.id = tid₀ <;> simp [h]
  rw [find?_congrPred _ _ hcongr]
  cases txs.find? (fun t => t.id == tid) with
  | none => rfl
  | some t =>
    simp only [Option.map_some, Option.map]
    by_cases h : t.id = tid₀ <;> simp [h]

/-- A status update keeps every transaction id small. -/
theorem updateStatus_id_bound (txs : List Transaction) (tid₀ : Nat) (s : TxStatus)
    (n : Nat) (h : ∀ t ∈ txs, t.id < n) :
    ∀ t ∈ updateTransactionStatus txs tid₀ s, t.id < n := by
  intro t ht
  unfold updateTransactionStatus at ht
  obtain ⟨x, hx, hfx⟩ := List.mem_map.mp ht
  by_cases hc : x.id = tid₀
  · simp only [hc, beq_self_eq_true, if_true] at hfx
    rw [← hfx]
    exact hc ▸ h x hx
  · simp only [beq_iff_eq, hc, if_false] at hfx
    rw [← hfx]
    exact h x hx

/-- When every transaction id is below the fresh id (`find?` misses). -/
theorem findTx_none_of_bound (txs : List Transaction) (n : Nat)
    (h : ∀ t ∈ txs, t.id < n) :
    txs.find? (fun t => t.id == n) = none := by
  rw [List.find?_eq_none]
  intro t ht hbeq
  have := h t ht
  have : t.id = n := by simpa using hbeq
  omega

/-- The initial store satisfies the invariant. -/
theorem Inv_initSt (ws : List Wallet)
    (hnd : (ws.map (fun w => w.id)).Nodup)
    (hz : ∀ w ∈ ws, w.balance = 0) :
    Inv (initSt ws) := by
  refine ⟨by simp [initSt], by simp [initSt], by simpa [initSt] using hnd, ?_⟩
  intro w hw
  have : walletEntries (initSt ws) w.id = [] := rfl
  rw [this]
  exact ⟨by simpa [signedSum] using hz w hw, rfl⟩

/-- A successful debit preserves the store invariant. -/
theorem Inv_debit (st : St) (walletId accountId : Nat) (amount : Int)
    (referenceId : String) (t : Transaction) (uw : Wallet) (st' : St)
    (hInv : Inv st)
    (h : debit st walletId accountId amount referenceId = .ok (t, uw, st')) :
    Inv st' := by
  obtain ⟨hT, hE, hN, hW⟩ := hInv
  cases hw : findWalletByIdAndAccountTx st walletId accountId with
  | none => simp only [debit, hw] at h; simp at h
  | some w =>
    obtain ⟨hA, hB, hC, ht, huw, hst⟩ :=
      debit_ok_inv st walletId accountId amount referenceId w t uw st' hw h
    have hwmem : w ∈ st.wallets := List.mem_of_find?_eq_some hw
    have hwp := List.find?_some hw
    simp only [Bool.and_eq_true, beq_iff_eq] at hwp
    obtain ⟨hwid, hwacc⟩ := hwp
    have hst'_tx : st'.transactions = st.transactions ++
        [⟨st.nextId, walletId, .debit, amount, .completed, referenceId⟩] := by rw [hst]
    have hst'_ledger : st'.ledger = st.ledger ++
        [⟨st.nextId + 1, st.nextId, .debit, amount, w.balance, w.balance - amount⟩] := by
      rw [hst]
    have hst'_wallets : st'.wallets = debitWallet st.wallets w amount := by rw [hst]
    have hst'_next : st'.nextId = st.nextId + 2 := by rw [hst]
    have hclass : ∀ e ∈ st.ledger, entryWalletId st' e = entryWalletId st e := by
      intro e he
      unfold entryWalletId
      rw [hst'_tx, findTx_append_fresh _ _ _ (Nat.ne_of_lt (hE e he))]
    have hnew : entryWalletId st'
        ⟨st.nextId + 1, st.nextId, .debit, amount, w.balance, w.balance - amount⟩ =
        some walletId := by
      simp only [entryWalletId, hst'_tx]
      rw [List.find?_append, findTx_none_of_bound st.transactions st.nextId hT]
      simp [Option.or]
    have hwe_ne : ∀ wid, wid ≠ walletId → walletEntries st' wid = walletEntries st wid := by
      intro wid hne
      unfold walletEntries
      rw [hst'_ledger, List.filter_append]
      rw [List.filter_congr (fun e he => by rw [hclass e he])]
      have h2 : List.filter (fun e => entryWalletId st' e == some wid)
          [⟨st.nextId + 1, st.nextId, .debit, amount, w.balance, w.balance - amount⟩] = [] := by
        have hbeq : (walletId == wid) = false := by simpa using Ne.symm hne
        simp [List.filter, hnew, hbeq]
      rw [h2, List.append_nil]
    have hwe_eq : walletEntries st' walletId = walletEntries st walletId ++
        [⟨st.nextId + 1, st.nextId, .debit, amount, w.balance, w.balance - amount⟩] := by
      unfold walletEntries
      rw [hst'_ledger, List.filter_append]
      rw [List.filter_congr (fun e he => by rw [hclass e he])]
      have h2 : List.filter (fun e => entryWalletId st' e == some walletId)
          [⟨st.nextId + 1, st.nextId, .debit, amount, w.balance, w.balance - amount⟩] =
          [⟨st.nextId + 1, st.nextId, .debit, amount, w.balance, w.balance - amount⟩] := by
        simp [List.filter, hnew]
      rw [h2]
    refine ⟨?_, ?_, ?_, ?_⟩
    · intro x hx
      rw [hst'_tx] at hx
      rw [hst'_next]
      rcases List.mem_append.mp hx with hx | hx
      · have := hT x hx; omega
      · rw [List.mem_singleton] at hx
        rw [hx]
        show st.nextId < st.nextId + 2
        omega
    · intro e he
      rw [hst'_ledger] at he
      rw [hst'_next]
      rcases List.mem_append.mp he with he | he
      · have := hE e he; omega
      · rw [List.mem_singleton] at he
        rw [he]
        show st.nextId < st.nextId + 2
        omega
    · rw [hst'_wallets]
      have hids : (debitWallet st.wallets w amount).map (fun x => x.id) =
          st.wallets.map (fun x => x.id) := by
        unfold debitWallet
        rw [List.map_map]
        apply List.map_congr_left
        intro x _
        by_cases hc : (x.id == w.id && x.version == w.version) = true
        · rw [Function.comp_apply, if_pos hc]
        · rw [Function.comp_apply, if_neg hc]
      rw [hids]
      exact hN
    · intro x' hx'
      rw [hst'_wallets] at hx'
      unfold debitWallet at hx'
      obtain ⟨x, hxmem, hfx⟩ := List.mem_map.mp hx'
      by_cases hc : (x.id == w.id && x.version == w.version) = true
      · have hxw : x = w := by
          have hc' := hc
          simp only [Bool.and_eq_true, beq_iff_eq] at hc'
          exact List.inj_on_of_nodup_map hN hxmem hwmem hc'.1
        subst hxw
        rw [if_pos hc] at hfx
        obtain ⟨hbal, hchain⟩ := hW x hwmem
        rw [hwid] at hbal hchain
        have hxid : x'.id = walletId := by rw [← hfx]; exact hwid
        rw [hxid, hwe_eq]
        constructor
        · rw [← hfx]
          show x.balance - amount = _
          rw [signedSum_append_single, ← hbal]
          simp only [signedAmount]
          omega
        · apply chainOk_append _ _ _ hchain
          · show x.balance = 0 + _
            omega
          · show x.balance - amount = x.balance + _
            simp only [signedAmount]
            omega
      · rw [if_neg hc] at hfx
        subst hfx
        have hxid : x.id ≠ walletId := by
          intro hq
          apply hc
          have hxw : x = w :=
            List.inj_on_of_nodup_map hN hxmem hwmem (by rw [hq, hwid])
          rw [hxw]
          simp
        rw [hwe_ne x.id hxid]
        exact hW x hxmem

/-- A successful credit preserves the store invariant. -/
theorem Inv_credit (st : St) (walletId accountId : Nat) (amount : Int)
    (referenceId : String) (t : Transaction) (uw : Wallet) (st' : St)
    (hInv : Inv st)
    (h : credit st walletId accountId amount referenceId = .ok (t, uw, st')) :
    Inv st' := by
  obtain ⟨hT, hE, hN, hW⟩ := hInv
  cases hw : findWalletByIdAndAccountTx st walletId accountId with
  | none => simp only [credit, hw] at h; simp at h
  | some w =>
    obtain ⟨hA, hC, ht, huw, hst⟩ :=
      credit_ok_inv st walletId accountId amount referenceId w t uw st' hw h
    have hwmem : w ∈ st.wallets := List.mem_of_find?_eq_some hw
    have hwp := List.find?_some hw
    simp only [Bool.and_eq_true, beq_iff_eq] at hwp
    obtain ⟨hwid, hwacc⟩ := hwp
    have hst'_tx : st'.transactions = st.transactions ++
        [⟨st.nextId, walletId, .credit, amount, .completed, referenceId⟩] := by rw [hst]
    have hst'_ledger : st'.ledger = st.ledger ++
        [⟨st.nextId + 1, st.nextId, .credit, amount, w.balance, w.balance + amount⟩] := by
      rw [hst]
    have hst'_wallets : st'.wallets = creditWallet st.wallets walletId w.balance amount := by
      rw [hst]
    have hst'_next : st'.nextId = st.nextId + 2 := by rw [hst]
    have hclass : ∀ e ∈ st.ledger, entryWalletId st' e = entryWalletId st e := by
      intro e he
      unfold entryWalletId
      rw [hst'_tx, findTx_append_fresh _ _ _ (Nat.ne_of_lt (hE e he))]
    have hnew : entryWalletId st'
        ⟨st.nextId + 1, st.nextId, .credit, amount, w.balance, w.balance + amount⟩ =
        some walletId := by
      simp only [entryWalletId, hst'_tx]
      rw [List.find?_append, findTx_none_of_bound st.transactions st.nextId hT]
      simp [Option.or]
    have hwe_ne : ∀ wid, wid ≠ walletId → walletEntries st' wid = walletEntries st wid := by
      intro wid hne
      unfold walletEntries
      rw [hst'_ledger, List.filter_append]
      rw [List.filter_congr (fun e he => by rw [hclass e he])]
      have h2 : List.filter (fun e => entryWalletId st' e == some wid)
          [⟨st.nextId + 1, st.nextId, .credit, amount, w.balance, w.balance + amount⟩] = [] := by
        have hbeq : (walletId == wid) = false := by simpa using Ne.symm hne
        simp [List.filter, hnew, hbeq]
      rw [h2, List.append_nil]
    have hwe_eq : walletEntries st' walletId = walletEntries st walletId ++
        [⟨st.nextId + 1, st.nextId, .credit, amount, w.balance, w.balance + amount⟩] := by
      unfold walletEntries
      rw [hst'_ledger, List.filter_append]
      rw [List.filter_congr (fun e he => by rw [hclass e he])]
      have h2 : List.filter (fun e => entryWalletId st' e == some walletId)
          [⟨st.nextId + 1, st.nextId, .credit, amount, w.balance, w.balance + amount⟩] =
          [⟨st.nextId + 1, st.nextId, .credit, amount, w.balance, w.balance + amount⟩] := by
        simp [List.filter, hnew]
      rw [h2]
    refine ⟨?_, ?_, ?_, ?_⟩
    · intro x hx
      rw [hst'_tx] at hx
      rw [hst'_next]
      rcases List.mem_append.mp hx with hx | hx
      · have := hT x hx; omega
      · rw [List.mem_singleton] at hx
        rw [hx]
        show st.nextId < st.nextId + 2
        omega
    · intro e he
      rw [hst'_ledger] at he
      rw [hst'_next]
      rcases List.mem_append.mp he with he | he
      · have := hE e he; omega
      · rw [List.mem_singleton] at he
        rw [he]
        show st.nextId < st.nextId + 2
        omega
    · rw [hst'_wallets]
      have hids : (creditWallet st.wallets walletId w.balance amount).map (fun x => x.id) =
          st.wallets.map (fun x => x.id) := by
        unfold creditWallet
        rw [List.map_map]
        apply List.map_congr_left
        intro x _
        by_cases hc : (x.id == walletId) = true
        · rw [Function.comp_apply, if_pos hc]
        · rw [Function.comp_apply, if_neg hc]
      rw [hids]
      exact hN
    · intro x' hx'
      rw [hst'_wallets] at hx'
      unfold creditWallet at hx'
      obtain ⟨x, hxmem, hfx⟩ := List.mem_map.mp hx'
      by_cases hc : (x.id == walletId) = true
      · have hxw : x = w := by
          have hc' := hc
          simp only [beq_iff_eq] at hc'
          exact List.inj_on_of_nodup_map hN hxmem hwmem (by rw [hc', hwid])
        subst hxw
        rw [if_pos hc] at hfx
        obtain ⟨hbal, hchain⟩ := hW x hwmem
        rw [hwid] at hbal hchain
        have hxid : x'.id = walletId := by rw [← hfx]; exact hwid
        rw [hxid, hwe_eq]
        constructor
        · rw [← hfx]
          show x.balance + amount = _
          rw [signedSum_append_single, ← hbal]
          simp only [signedAmount]
        · apply chainOk_append _ _ _ hchain
          · show x.balance = 0 + _
            omega
          · show x.balance + amount = x.balance + _
            simp only [signedAmount]
      · rw [if_neg hc] at hfx
        subst hfx
        have hxid : x.id ≠ walletId := by simpa using hc
        rw [hwe_ne x.id hxid]
        exact hW x hxmem

/-- A successful adminReverse preserves the store invariant. -/
theorem Inv_adminReverse (st : St) (tid : Nat)
    (ot rt : Transaction) (uw : Wallet) (st' : St)
    (hInv : Inv st)
    (h : adminReverse st tid = .ok (ot, rt, uw, st')) :
    Inv st' := by
  obtain ⟨hT, hE, hN, hW⟩ := hInv
  cases htx : findByIdTx st tid with
  | none => simp only [adminReverse, htx] at h; simp at h
  | some t =>
    cases hwx : st.wallets.find? (fun x => x.id == t.walletId) with
    | none => simp only [adminReverse, htx, hwx] at h; simp at h
    | some w =>
      obtain ⟨hstatus, nb, rT, hcase, hot, hrt, huw, hst⟩ :=
        adminReverse_ok_inv st tid t w ot rt uw st' htx hwx h
      have hwmem : w ∈ st.wallets := List.mem_of_find?_eq_some hwx
      have hwid : w.id = t.walletId := by simpa using List.find?_some hwx
      have hsa : signedAmount ⟨st.nextId + 1, st.nextId, rT, t.amount, w.balance, nb⟩ =
          nb - w.balance := by
        rcases hcase with ⟨hty, hnb, hrT⟩ | ⟨hty, hlt, hnb, hrT⟩ <;> subst hrT <;>
          simp only [signedAmount] <;> omega
      have hst'_tx : st'.transactions =
          updateTransactionStatus st.transactions tid .reversed ++
          [⟨st.nextId, w.id, .reverse, t.amount, .completed, "REV-" ++ t.referenceId⟩] := by
        rw [hst]
      have hst'_ledger : st'.ledger = st.ledger ++
          [⟨st.nextId + 1, st.nextId, rT, t.amount, w.balance, nb⟩] := by rw [hst]
      have hst'_wallets : st'.wallets = updateWalletBalance st.wallets w nb := by rw [hst]
      have hst'_next : st'.nextId = st.nextId + 2 := by rw [hst]
      have hTmap : ∀ x ∈ updateTransactionStatus st.transactions tid .reversed,
          x.id < st.nextId := updateStatus_id_bound st.transactions tid .reversed st.nextId hT
      have hclass : ∀ e ∈ st.ledger, entryWalletId st' e = entryWalletId st e := by
        intro e he
        unfold entryWalletId
        rw [hst'_tx, findTx_append_fresh _ _ _ (Nat.ne_of_lt (hE e he))]
        exact findTx_walletId_updateStatus st.transactions tid .reversed e.transactionId
      have hnew : entryWalletId st'
          ⟨st.nextId + 1, st.nextId, rT, t.amount, w.balance, nb⟩ = some w.id := by
        simp only [entryWalletId, hst'_tx]
        rw [List.find?_append,
          findTx_none_of_bound (updateTransactionStatus st.transactions tid .reversed)
            st.nextId hTmap]
        simp [Option.or]
      have hwe_ne : ∀ wid, wid ≠ w.id → walletEntries st' wid = walletEntries st wid := by
        intro wid hne
        unfold walletEntries
        rw [hst'_ledger, List.filter_append]
        rw [List.filter_congr (fun e he => by rw [hclass e he])]
        have h2 : List.filter (fun e => entryWalletId st' e == some wid)
            [⟨st.nextId + 1, st.nextId, rT, t.amount, w.balance, nb⟩] = [] := by
          have hbeq : (w.id == wid) = false := by simpa using Ne.symm hne
          simp [List.filter, hnew, hbeq]
        rw [h2, List.append_nil]
      have hwe_eq : walletEntries st' w.id = walletEntries st w.id ++
          [⟨st.nextId + 1, st.nextId, rT, t.amount, w.balance, nb⟩] := by
        unfold walletEntries
        rw [hst'_ledger, List.filter_append]
        rw [List.filter_congr (fun e he => by rw [hclass e he])]
        have h2 : List.filter (fun e => entryWalletId st' e == some w.id)
            [⟨st.nextId + 1, st.nextId, rT, t.amount, w.balance, nb⟩] =
            [⟨st.nextId + 1, st.nextId, rT, t.amount, w.balance, nb⟩] := by
          simp [List.filter, hnew]
        rw [h2]
      refine ⟨?_, ?_, ?_, ?_⟩
      · intro x hx
        rw [hst'_tx] at hx
        rw [hst'_next]
        rcases List.mem_append.mp hx with hx | hx
        · have := hTmap x hx; omega
        · rw [List.mem_singleton] at hx
          rw [hx]
          show st.nextId < st.nextId + 2
          omega
      · intro e he
        rw [hst'_ledger] at he
        rw [hst'_next]
        rcases List.mem_append.mp he with he | he
        · have := hE e he; omega
        · rw [List.mem_singleton] at he
          rw [he]
          show st.nextId < st.nextId + 2
          omega
      · rw [hst'_wallets]
        have hids : (updateWalletBalance st.wallets w nb).map (fun x => x.id) =
            st.wallets.map (fun x => x.id) := by
          unfold updateWalletBalance
          rw [List.map_map]
          apply List.map_congr_left
          intro x _
          by_cases hc : (x.id == w.id && x.version == w.version) = true
          · rw [Function.comp_apply, if_pos hc]
          · rw [Function.comp_apply, if_neg hc]
        rw [hids]
        exact hN
      · intro x' hx'
        rw [hst'_wallets] at hx'
        unfold updateWalletBalance at hx'
        obtain ⟨x, hxmem, hfx⟩ := List.mem_map.mp hx'
        by_cases hc : (x.id == w.id && x.version == w.version) = true
        · have hxw : x = w := by
            have hc' := hc
            simp only [Bool.and_eq_true, beq_iff_eq] at hc'
            exact List.inj_on_of_nodup_map hN hxmem hwmem hc'.1
          subst hxw
          rw [if_pos hc] at hfx
          obtain ⟨hbal, hchain⟩ := hW x hxmem
          have hxid : x'.id = x.id := by rw [← hfx]
          rw [hxid, hwe_eq]
          constructor
          · rw [← hfx]
            show nb = _
            rw [signedSum_append_single, ← hbal, hsa]
            omega
          · apply chainOk_append _ _ _ hchain
            · show x.balance = 0 + _
              omega
            · show nb = x.balance + _
              rw [hsa]
              omega
        · rw [if_neg hc] at hfx
          subst hfx
          have hxid : x.id ≠ w.id := by
            intro hq
            apply hc
            have hxw : x = w := List.inj_on_of_nodup_map hN hxmem hwmem hq
            rw [hxw]
            simp
          rw [hwe_ne x.id hxid]
          exact hW x hxmem

/-- Each successful operation preserves the invariant. -/
theorem Inv_runOp (st st' : St) (op : Op) (hInv : Inv st) (h : runOp st op = .ok st') :
    Inv st' := by
  cases op with
  | debit walletId accountId amount referenceId =>
    cases hd : debit st walletId accountId amount referenceId with
    | error e => simp only [runOp, hd, Except.map] at h; exact absurd h (by simp)
    | ok r =>
      obtain ⟨t, uw, st''⟩ := r
      simp only [runOp, hd, Except.map, Except.ok.injEq] at h
      subst h
      exact Inv_debit st walletId accountId amount referenceId t uw st'' hInv hd
  | credit walletId accountId amount referenceId =>
    cases hd : credit st walletId accountId amount referenceId with
    | error e => simp only [runOp, hd, Except.map] at h; exact absurd h (by simp)
    | ok r =>
      obtain ⟨t, uw, st''⟩ := r
      simp only [runOp, hd, Except.map, Except.ok.injEq] at h
      subst h
      exact Inv_credit st walletId accountId amount referenceId t uw st'' hInv hd
  | adminReverse tid =>
    cases hd : adminReverse st tid with
    | error e => simp only [runOp, hd, Except.map] at h; exact absurd h (by simp)
    | ok r =>
      obtain ⟨ot, rt, uw, st''⟩ := r
      simp only [runOp, hd, Except.map, Except.ok.injEq] at h
      subst h
      exact Inv_adminReverse st tid ot rt uw st'' hInv hd

/-- Running any list of operations to success preserves the invariant. -/
theorem Inv_runOps (ops : List Op) : ∀ st st', Inv st → runOps ops st = .ok st' →
    Inv st' := by
  induction ops with
  | nil =>
    intro st st' hInv h
    simp only [runOps, Except.ok.injEq] at h
    subst h
    exact hInv
  | cons op ops ih =>
    intro st st' hInv h
    simp only [runOps] at h
    cases hop : runOp st op with
    | error e => rw [hop] at h; simp [Except.bind] at h
    | ok st₁ =>
      rw [hop] at h
      simp only [Except.bind] at h
      exact ih st₁ st' (Inv_runOp st st₁ op hInv hop) h

/-- C2: starting every wallet from balance 0 with an empty ledger, any
sequence of successful debit/credit/adminReverse operations keeps each
wallet's balance equal to the sum of the signed amounts of its ledger
entries (credits positive, debits negative), and replaying the entries in
creation order from 0 matches each entry's balanceBefore/balanceAfter to
the wallet balance immediately before and after its transaction. -/
theorem C2_conservation (ws : List Wallet)
    (hnd : (ws.map (fun w => w.id)).Nodup)
    (hz : ∀ w ∈ ws, w.balance = 0)
    (ops : List Op) (st' : St)
    (h : runOps ops (initSt ws) = .ok st') :
    ∀ w ∈ st'.wallets, w.balance = signedSum (walletEntries st' w.id) ∧
      chainOk 0 (walletEntries st' w.id) = true :=
  (Inv_runOps ops (initSt ws) st' (Inv_initSt ws hnd hz) h).2.2.2

/-- Witness for C2: credit 100, debit 40, adminReverse of the debit — the
final balance 100 equals the signed ledger sum 100 − 40 + 40 and the
before/after chain replays from 0. -/
theorem C2_conservation_witness :
    (⟨1, 1, 100, "USD", 2, .active⟩ : Wallet).balance =
      signedSum (walletEntries ⟨[⟨1, 1, 100, "USD", 2, .active⟩],
        [⟨0, 1, .credit, 100, .completed, "c1"⟩, ⟨2, 1, .debit, 40, .reversed, "d1"⟩,
         ⟨4, 1, .reverse, 40, .completed, "REV-d1"⟩],
        [⟨1, 0, .credit, 100, 0, 100⟩, ⟨3, 2, .debit, 40, 100, 60⟩,
         ⟨5, 4, .credit, 40, 60, 100⟩], 6⟩ 1) ∧
    chainOk 0 (walletEntries ⟨[⟨1, 1, 100, "USD", 2, .active⟩],
        [⟨0, 1, .credit, 100, .completed, "c1"⟩, ⟨2, 1, .debit, 40, .reversed, "d1"⟩,
         ⟨4, 1, .reverse, 40, .completed, "REV-d1"⟩],
        [⟨1, 0, .credit, 100, 0, 100⟩, ⟨3, 2, .debit, 40, 100, 60⟩,
         ⟨5, 4, .credit, 40, 60, 100⟩], 6⟩ 1) = true :=
  C2_conservation [⟨1, 1, 0, "USD", 0, .active⟩] (by decide) (by decide)
    [.credit 1 1 100 "c1", .debit 1 1 40 "d1", .adminReverse 2]
    ⟨[⟨1, 1, 100, "USD", 2, .active⟩],
      [⟨0, 1, .credit, 100, .completed, "c1"⟩, ⟨2, 1, .debit, 40, .reversed, "d1"⟩,
       ⟨4, 1, .reverse, 40, .completed, "REV-d1"⟩],
      [⟨1, 0, .credit, 100, 0, 100⟩, ⟨3, 2, .debit, 40, 100, 60⟩,
       ⟨5, 4, .credit, 40, 60, 100⟩], 6⟩ rfl
    ⟨1, 1, 100, "USD", 2, .active⟩ (by decide)

end WalletSys
